import Mathlib

/-!
# Verification of the deterministic daily counter of `beyond-january`

Shallow embedding of the counter pipeline in `src/app/home/page.tsx`:

* `hashStringToSeed` — FNV-1a-style 32-bit string hash (`for` loop over the
  character codes becomes a `List.foldl`);
* `mulberry32` — one invocation of the closure returned by the JS
  `mulberry32(seed)`: the mutable captured `seed` becomes explicit state
  passing, so one call maps the current state to the pair
  (next state, 32-bit output).  In JS every bitwise operator coerces its
  operands to 32 bits; we carry the unsigned 32-bit pattern as a `Nat` and
  take `% 4294967296` exactly where the source coerces.  The state update
  `seed += 0x6d2b79f5` is an exact double-precision addition for every call
  count reachable here (far below 2^53), modelled as plain `Nat` addition;
* `countEventsByT` — the `while (true)` event loop.  The loop has no bound
  in the source; the embedding threads an explicit iteration budget (fuel)
  `T + 1`, and the theorem for the termination claim shows that once
  `1 ≤ minGap` the loop breaks within `T + 1` iterations, making the budget
  value immaterial.

The generator output `r = out / 2^32` is a dyadic rational in `[0, 1)`; the
gap `minGap + Math.floor(r * (maxGap - minGap + 1))` is modelled by exact
natural floor division `minGap + out * (maxGap - minGap + 1) / 2^32`, which
coincides with IEEE double evaluation whenever
`out * (maxGap - minGap + 1) < 2^53` — in particular for the program's
configured span `maxGap - minGap + 1 = 60`.
-/

namespace BeyondJanuary

/-- The 32-bit modulus `2^32`: every JS bitwise operator and `>>> 0`
coerces to this many bits. -/
def U32 : Nat := 4294967296

/-- One step of the FNV-1a hash loop body:
`h ^= str.charCodeAt(i); h = Math.imul(h, 16777619)`. -/
def hashStep (h c : Nat) : Nat := ((h ^^^ c) * 16777619) % U32

/-- `hashStringToSeed` from `src/app/home/page.tsx` (lines 69–76), on the
list of UTF-16 character codes of the input string: accumulator starts at
`2166136261`, each character is XORed in and the result multiplied by
`16777619` modulo `2^32`; the trailing `>>> 0` makes the result the
unsigned 32-bit pattern, which is what the `Nat` value already is. -/
def hashStringToSeed (s : List Nat) : Nat := s.foldl hashStep 2166136261

/-- `mulberry32` from `src/app/home/page.tsx` (lines 79–86): one call of the
returned closure.  Input: current captured state; output: (state after the
call, the 32-bit integer `out` such that the JS call returns
`out / 4294967296`). -/
def mulberry32 (seed : Nat) : Nat × Nat :=
  let s := seed + 0x6d2b79f5
  let t0 := s % U32
  let t1 := ((t0 ^^^ (t0 >>> 15)) * (t0 ||| 1)) % U32
  let t2 := t1 ^^^ ((t1 + ((t1 ^^^ (t1 >>> 7)) * (t1 ||| 61)) % U32) % U32)
  (s, (t2 ^^^ (t2 >>> 14)) % U32)

/-- One gap draw of the event loop:
`gap = minGap + Math.floor(rng() * (maxGap - minGap + 1))`.
Returns (gap, generator state after the draw). -/
def drawGap (minGap maxGap state : Nat) : Nat × Nat :=
  let p := mulberry32 state
  (minGap + p.2 * (maxGap - minGap + 1) / U32, p.1)

/-- The `while (true)` loop body of `countEventsByT`, with an explicit
iteration budget (`fuel`): draw a gap, add it to the clock `t`, stop and
return `count` as soon as `t` exceeds `T`, otherwise increment `count` and
continue.  The source loop is unbounded; `countLoop_stop`-style lemmas below
show the budget never runs out when `1 ≤ minGap`. -/
def countLoop (minGap maxGap T : Nat) : Nat → Nat → Nat → Nat → Nat
  | 0, _, _, count => count
  | fuel + 1, state, t, count =>
    let g := drawGap minGap maxGap state
    if T < t + g.1 then count
    else countLoop minGap maxGap T fuel g.2 (t + g.1) (count + 1)

/-- `countEventsByT` from `src/app/home/page.tsx` (lines 94–106): number of
simulated events whose arrival time is at most `T`, with the budget set to
`T + 1`, enough for the loop to reach its `break` whenever `1 ≤ minGap`. -/
def countEventsByT (seed T minGap maxGap : Nat) : Nat :=
  countLoop minGap maxGap T (T + 1) seed 0 0

/-- `MIN_GAP_SECONDS` from `src/app/home/page.tsx` (line 108). -/
def MIN_GAP_SECONDS : Nat := 1

/-- `MAX_GAP_SECONDS` from `src/app/home/page.tsx` (line 109). -/
def MAX_GAP_SECONDS : Nat := 60

/-- Character codes of the namespace string
`"beyond-january-daily-counter-"` that the home page prepends to the date
key before hashing. -/
def nsKey : List Nat := "beyond-january-daily-counter-".data.map Char.toNat

/-- The full counter pipeline of the home-page effect (lines 129–144):
`seed = hashStringToSeed("beyond-january-daily-counter-" + dateKey)`, then
`countEventsByT(seed, T, minGap, maxGap)`.  The date key is passed as its
list of character codes. -/
def computeEventCount (dateKey : List Nat) (T minGap maxGap : Nat) : Nat :=
  countEventsByT (hashStringToSeed (nsKey ++ dateKey)) T minGap maxGap

/-- Spec-side description of the hash ("FNV-1a-32 of the character codes"),
written as direct recursion over the characters, to be compared with the
foldl embedding of the source loop. -/
def fnv1a32Go (h : Nat) : List Nat → Nat
  | [] => h
  | c :: cs => fnv1a32Go (((h ^^^ c) * 16777619) % U32) cs

/-- FNV-1a-32 of a list of character codes. -/
def fnv1a32 (s : List Nat) : Nat := fnv1a32Go 2166136261 s

/-! ## Helper lemmas -/

theorem U32_pos : 0 < U32 := by decide

theorem hashStep_lt (h c : Nat) : hashStep h c < U32 :=
  Nat.mod_lt _ U32_pos

theorem foldl_hashStep_lt (l : List Nat) (h : Nat) (hh : h < U32) :
    l.foldl hashStep h < U32 := by
  induction l generalizing h with
  | nil => exact hh
  | cons c cs ih => exact ih _ (hashStep_lt h c)

theorem hashStringToSeed_lt_U32 (s : List Nat) : hashStringToSeed s < U32 :=
  foldl_hashStep_lt s 2166136261 (by decide)

theorem foldl_hashStep_eq_fnv (l : List Nat) (h : Nat) :
    l.foldl hashStep h = fnv1a32Go h l := by
  induction l generalizing h with
  | nil => rfl
  | cons c cs ih => simpa [hashStep, fnv1a32Go] using ih (hashStep h c)

theorem mulberry32_out_lt (state : Nat) : (mulberry32 state).2 < U32 :=
  Nat.mod_lt _ U32_pos

theorem drawGap_lower (minGap maxGap state : Nat) :
    minGap ≤ (drawGap minGap maxGap state).1 :=
  Nat.le_add_right _ _

theorem drawGap_upper (minGap maxGap state : Nat) (hle : minGap ≤ maxGap) :
    (drawGap minGap maxGap state).1 ≤ maxGap := by
  have hout : (mulberry32 state).2 < U32 := mulberry32_out_lt state
  have hn : 0 < maxGap - minGap + 1 := Nat.succ_pos _
  have hfloor : (mulberry32 state).2 * (maxGap - minGap + 1) / U32
      < maxGap - minGap + 1 := by
    exact Nat.div_lt_of_lt_mul (Nat.mul_lt_mul_of_pos_right hout hn)
  show minGap + (mulberry32 state).2 * (maxGap - minGap + 1) / U32 ≤ maxGap
  omega

theorem drawGap_pos (minGap maxGap state : Nat) (hmn : 1 ≤ minGap) :
    1 ≤ (drawGap minGap maxGap state).1 :=
  le_trans hmn (drawGap_lower minGap maxGap state)

/-- Once the clock has reached the horizon, the loop breaks on its next
draw (any positive gap pushes `t` past `T`) and returns the count
unchanged. -/
theorem countLoop_stop (minGap maxGap T fuel state t count : Nat)
    (hmn : 1 ≤ minGap) (ht : T ≤ t) :
    countLoop minGap maxGap T fuel state t count = count := by
  cases fuel with
  | zero => rfl
  | succ f =>
    have hg := drawGap_pos minGap maxGap state hmn
    simp only [countLoop]
    rw [if_pos (by omega)]

/-- The loop never decreases the running count. -/
theorem countLoop_ge (minGap maxGap T fuel : Nat) :
    ∀ state t count, count ≤ countLoop minGap maxGap T fuel state t count := by
  induction fuel with
  | zero => intro state t count; exact le_refl _
  | succ f ih =>
    intro state t count
    simp only [countLoop]
    by_cases hbr : T < t + (drawGap minGap maxGap state).1
    · rw [if_pos hbr]
    · rw [if_neg hbr]
      exact le_trans (Nat.le_succ count) (ih _ _ _)

/-- Loop invariant for the upper bound: every counted event advances the
clock by at least one second, so the count gained is at most the seconds
remaining. -/
theorem countLoop_le (minGap maxGap T fuel : Nat) (hmn : 1 ≤ minGap) :
    ∀ state t count,
      countLoop minGap maxGap T fuel state t count ≤ count + (T - t) := by
  induction fuel with
  | zero => intro state t count; exact Nat.le_add_right _ _
  | succ f ih =>
    intro state t count
    have hg := drawGap_pos minGap maxGap state hmn
    simp only [countLoop]
    by_cases hbr : T < t + (drawGap minGap maxGap state).1
    · rw [if_pos hbr]; exact Nat.le_add_right _ _
    · rw [if_neg hbr]
      have := ih (drawGap minGap maxGap state).2
        (t + (drawGap minGap maxGap state).1) (count + 1)
      omega

/-- The result does not depend on the iteration budget, as long as the
budget covers the seconds remaining to the horizon: the loop reaches its
`break` first. -/
theorem countLoop_fuel (minGap maxGap T : Nat) (hmn : 1 ≤ minGap) :
    ∀ fuel₁ fuel₂ state t count, T + 1 ≤ fuel₁ + t → T + 1 ≤ fuel₂ + t →
      countLoop minGap maxGap T fuel₁ state t count
        = countLoop minGap maxGap T fuel₂ state t count := by
  intro fuel₁
  induction fuel₁ with
  | zero =>
    intro fuel₂ state t count h₁ h₂
    have ht : T ≤ t := by omega
    simp only [countLoop]
    rw [countLoop_stop minGap maxGap T fuel₂ state t count hmn ht]
  | succ f ih =>
    intro fuel₂ state t count h₁ h₂
    cases fuel₂ with
    | zero =>
      have ht : T ≤ t := by omega
      rw [countLoop_stop minGap maxGap T (f + 1) state t count hmn ht]
      rfl
    | succ f₂ =>
      have hg := drawGap_pos minGap maxGap state hmn
      simp only [countLoop]
      by_cases hbr : T < t + (drawGap minGap maxGap state).1
      · rw [if_pos hbr, if_pos hbr]
      · rw [if_neg hbr, if_neg hbr]
        exact ih f₂ _ _ _ (by omega) (by omega)

/-- The loop result is monotone in the horizon `T` when the budget is held
fixed. -/
theorem countLoop_mono_T (minGap maxGap T₁ T₂ : Nat) (hT : T₁ ≤ T₂) :
    ∀ fuel state t count,
      countLoop minGap maxGap T₁ fuel state t count
        ≤ countLoop minGap maxGap T₂ fuel state t count := by
  intro fuel
  induction fuel with
  | zero => intro state t count; exact le_refl _
  | succ f ih =>
    intro state t count
    simp only [countLoop]
    by_cases h₂ : T₂ < t + (drawGap minGap maxGap state).1
    · rw [if_pos (by omega), if_pos h₂]
    · rw [if_neg h₂]
      by_cases h₁ : T₁ < t + (drawGap minGap maxGap state).1
      · rw [if_pos h₁]
        exact le_trans (Nat.le_succ count) (countLoop_ge _ _ _ _ _ _ _)
      · rw [if_neg h₁]
        exact ih _ _ _

/-- Raising the horizon by one second adds at most one event: the arrival
times are strictly increasing, so at most one of them equals `T + 1`. -/
theorem countLoop_step_T (minGap maxGap T : Nat) (hmn : 1 ≤ minGap) :
    ∀ fuel state t count,
      countLoop minGap maxGap (T + 1) fuel state t count
        ≤ countLoop minGap maxGap T fuel state t count + 1 := by
  intro fuel
  induction fuel with
  | zero => intro state t count; exact Nat.le_succ _
  | succ f ih =>
    intro state t count
    simp only [countLoop]
    by_cases h₂ : T + 1 < t + (drawGap minGap maxGap state).1
    · rw [if_pos h₂, if_pos (by omega)]
      exact Nat.le_succ _
    · rw [if_neg h₂]
      by_cases h₁ : T < t + (drawGap minGap maxGap state).1
      · rw [if_pos h₁]
        have hstop := countLoop_stop minGap maxGap (T + 1) f
          (drawGap minGap maxGap state).2 (t + (drawGap minGap maxGap state).1)
          (count + 1) hmn (by omega)
        omega
      · rw [if_neg h₁]
        exact ih _ _ _

/-! ## Claim theorems -/

/-- Claim C1: Determinism/purity — the counter pipeline (seed =
`hashStringToSeed` of the namespace string concatenated with the date key,
then `countEventsByT(seed, T, minGap, maxGap)`) is a pure function of its
arguments: any two evaluations on identical inputs return the identical
integer, with no hidden mutable state. -/
theorem counter_pipeline_deterministic
    (dk₁ dk₂ : List Nat) (T₁ T₂ mn₁ mn₂ mx₁ mx₂ : Nat)
    (hT₀ : 0 ≤ T₁) (hmn : 1 ≤ mn₁) (hmx : mn₁ ≤ mx₁)
    (hdk : dk₁ = dk₂) (hT : T₁ = T₂) (hmneq : mn₁ = mn₂) (hmxeq : mx₁ = mx₂) :
    computeEventCount dk₁ T₁ mn₁ mx₁ = computeEventCount dk₂ T₂ mn₂ mx₂ := by
  subst hdk; subst hT; subst hmneq; subst hmxeq; rfl

theorem counter_pipeline_deterministic_witness :
    computeEventCount [50] 5 1 60 = computeEventCount [50] 5 1 60 :=
  counter_pipeline_deterministic [50] [50] 5 5 1 1 60 60 (by decide) (by decide)
    (by decide) rfl rfl rfl rfl

/-- Claim C2: Monotonic non-decrease within a day — for a fixed seed and
fixed bounds `1 ≤ minGap ≤ maxGap`, and any `T₁ < T₂`, the count at `T₁`
is at most the count at `T₂`. -/
theorem countEventsByT_mono (seed mn mx T₁ T₂ : Nat)
    (hmn : 1 ≤ mn) (hmx : mn ≤ mx) (hT : T₁ < T₂) :
    countEventsByT seed T₁ mn mx ≤ countEventsByT seed T₂ mn mx := by
  unfold countEventsByT
  rw [countLoop_fuel mn mx T₁ hmn (T₁ + 1) (T₂ + 1) seed 0 0 (by omega) (by omega)]
  exact countLoop_mono_T mn mx T₁ T₂ (by omega) (T₂ + 1) seed 0 0

theorem countEventsByT_mono_witness :
    countEventsByT 7 3 1 2 ≤ countEventsByT 7 5 1 2 :=
  countEventsByT_mono 7 1 2 3 5 (by decide) (by decide) (by decide)

/-- Claim C3: Midnight reset / different-day independence — at
`elapsedSeconds = 0` the count is `0` for every seed (hence for every date
key), whatever any other day's count was: the very first drawn gap is at
least `minGap ≥ 1 > 0`, so the loop breaks before counting anything. -/
theorem countEventsByT_midnight (seed mn mx : Nat) (hmn : 1 ≤ mn) :
    countEventsByT seed 0 mn mx = 0 := by
  have hg := drawGap_pos mn mx seed hmn
  unfold countEventsByT
  simp only [countLoop]
  rw [if_pos (by omega)]

theorem countEventsByT_midnight_witness :
    countEventsByT
      (hashStringToSeed (nsKey ++ ("2026-02-01".data.map Char.toNat)))
      0 1 60 = 0 :=
  countEventsByT_midnight _ 1 60 (by decide)

/-- Claim C4: Upper bound — with `minGap ≥ 1` the count after `T` seconds
never exceeds `T`: at most one simulated event per elapsed second. -/
theorem countEventsByT_le (seed T mn mx : Nat)
    (hmn : 1 ≤ mn) (hmx : mn ≤ mx) :
    countEventsByT seed T mn mx ≤ T := by
  have h := countLoop_le mn mx T (T + 1) hmn seed 0 0
  unfold countEventsByT
  omega

theorem countEventsByT_le_witness : countEventsByT 42 10 1 60 ≤ 10 :=
  countEventsByT_le 42 10 1 60 (by decide) (by decide)

/-- Claim C5: Seed derivation equals FNV-1a-32 — on every list of character
codes, `hashStringToSeed` computes exactly the 32-bit FNV-1a hash
(accumulator `2166136261`, per character XOR then multiply by `16777619`
wrapped to 32 bits) and the result is an unsigned integer below `2^32`;
being a function of the input list alone, identical strings always hash to
the identical seed. -/
theorem hashStringToSeed_spec (s : List Nat) :
    hashStringToSeed s = fnv1a32 s ∧ hashStringToSeed s < U32 :=
  ⟨foldl_hashStep_eq_fnv s 2166136261, hashStringToSeed_lt_U32 s⟩

/-- Claim C6: Gap range — every Mulberry32 output is a 32-bit value (so the
returned fraction `out / 2^32` lies in `[0, 1)`), and consequently every
gap drawn by the event loop lies in the inclusive range
`[minGap, maxGap]` whenever `1 ≤ minGap ≤ maxGap`. -/
theorem drawGap_range (state mn mx : Nat) (hmn : 1 ≤ mn) (hmx : mn ≤ mx) :
    (mulberry32 state).2 < U32 ∧
      mn ≤ (drawGap mn mx state).1 ∧ (drawGap mn mx state).1 ≤ mx :=
  ⟨mulberry32_out_lt state, drawGap_lower mn mx state,
    drawGap_upper mn mx state hmx⟩

theorem drawGap_range_witness :
    (mulberry32 0).2 < U32 ∧
      1 ≤ (drawGap 1 60 0).1 ∧ (drawGap 1 60 0).1 ≤ 60 :=
  drawGap_range 0 1 60 (by decide) (by decide)

/-- Claim C7: Totality/termination — with `1 ≤ minGap` every iteration
advances the clock by at least one second, so the loop breaks within
`T + 1` iterations: running the loop with any iteration budget of at least
`T + 1` yields exactly `countEventsByT`, i.e. the budget never runs out and
the function is total on its specified domain. -/
theorem countEventsByT_total (seed T mn mx fuel : Nat)
    (hmn : 1 ≤ mn) (hmx : mn ≤ mx) (hfuel : T + 1 ≤ fuel) :
    countLoop mn mx T fuel seed 0 0 = countEventsByT seed T mn mx :=
  countLoop_fuel mn mx T hmn fuel (T + 1) seed 0 0 (by omega) (by omega)

theorem countEventsByT_total_witness :
    countLoop 1 60 3 10 42 0 0 = countEventsByT 42 3 1 60 :=
  countEventsByT_total 42 3 1 60 10 (by decide) (by decide) (by decide)

set_option maxRecDepth 100000 in
/-- Claim C8: Concrete example — seeding with the hash of
`"beyond-january-daily-counter-2026-01-15"` and simulating gaps in
`[1, 60]` up to `T = 3600` yields the single deterministic value `121`,
which lies between `60` and `3600` inclusive. -/
theorem computeEventCount_golden :
    computeEventCount ("2026-01-15".data.map Char.toNat) 3600 1 60 = 121 ∧
      60 ≤ computeEventCount ("2026-01-15".data.map Char.toNat) 3600 1 60 ∧
      computeEventCount ("2026-01-15".data.map Char.toNat) 3600 1 60 ≤ 3600 := by
  decide

/-- Claim C9 (counterexample): the code performs no configuration
validation at all.  With the invalid bounds `minGap = 0`, `maxGap = 0`
(both non-positive) the counter loop is entered and executed rather than
rejected: the drawn gap is `0`, the clock never advances past the horizon,
the `break` is never reached, and the loop spins forever — concretely, the
result consumes whatever iteration budget it is given (budget 4 yields 4,
budget 5 yields 5), so no fail-fast configuration error precedes the
invocation. -/
theorem no_config_validation :
    (drawGap 0 0 12345).1 = 0 ∧
      countLoop 0 0 5 4 12345 0 0 = 4 ∧
      countLoop 0 0 5 5 12345 0 0 = 5 := by
  decide

/-- Claim C9 (amended): the code never validates the gap bounds; instead,
the only invocation of `countEventsByT` passes the fixed constants
`MIN_GAP_SECONDS = 1` and `MAX_GAP_SECONDS = 60`, which do satisfy
`1 ≤ minGap ≤ maxGap`, so the counter is in fact never invoked with
invalid bounds. -/
theorem config_constants_valid :
    MIN_GAP_SECONDS = 1 ∧ MAX_GAP_SECONDS = 60 ∧
      1 ≤ MIN_GAP_SECONDS ∧ MIN_GAP_SECONDS ≤ MAX_GAP_SECONDS := by
  decide

/-- Claim C10: Per-second step bound — raising the horizon by one second
never adds more than one event: arrival times are strictly increasing
(each gap is at least one second), so at most one arrival can land on the
new second. -/
theorem countEventsByT_step (seed T mn mx : Nat)
    (hmn : 1 ≤ mn) (hmx : mn ≤ mx) :
    countEventsByT seed (T + 1) mn mx ≤ countEventsByT seed T mn mx + 1 := by
  unfold countEventsByT
  rw [countLoop_fuel mn mx T hmn (T + 1) (T + 2) seed 0 0 (by omega) (by omega)]
  exact countLoop_step_T mn mx T hmn (T + 2) seed 0 0

theorem countEventsByT_step_witness :
    countEventsByT 7 4 1 2 ≤ countEventsByT 7 3 1 2 + 1 :=
  countEventsByT_step 7 3 1 2 (by decide) (by decide)

end BeyondJanuary
